import Mathlib

/-!
Verification of the comms_automation template-to-hyperlinked-document
converter.  The Python source operates on strings with `split`, `find`,
`replace`, `strip` and substring containment; we shallowly embed those
operations over `List Char` and model the hyperlink document builder, the
AI-response splicer and the generate-button pipeline as pure functions.
Fallible code (Python raising `ValueError` on `split` with an empty
separator) is modelled with `Except`.
-/

namespace CommsAutomation

/-- Strings are modelled as lists of characters. -/
abbrev Str := List Char

instance instDecEqExcept {ε α : Type} [DecidableEq ε] [DecidableEq α] :
    DecidableEq (Except ε α)
  | .ok a, .ok b =>
    if h : a = b then .isTrue (by subst h; rfl)
    else .isFalse (fun hc => h (Except.ok.inj hc))
  | .error a, .error b =>
    if h : a = b then .isTrue (by subst h; rfl)
    else .isFalse (fun hc => h (Except.error.inj hc))
  | .ok _, .error _ => .isFalse (fun hc => Except.noConfusion hc)
  | .error _, .ok _ => .isFalse (fun hc => Except.noConfusion hc)

/-- Python `s.startswith(pat)`: `pat` is a prefix of `s`. -/
def startsWith : Str → Str → Bool
  | [], _ => true
  | _ :: _, [] => false
  | p :: ps, c :: cs => p == c && startsWith ps cs

/-- Python `pat in s`: substring containment (true at some position,
including the empty pattern, which is contained in every string). -/
def containsSub (pat : Str) : Str → Bool
  | [] => startsWith pat []
  | c :: rest => startsWith pat (c :: rest) || containsSub pat rest

/-- Leftmost occurrence of `pat` in `s`: `some (before, after)` where the
first occurrence of `pat` in `s` is preceded by `before` and followed by
`after`. -/
def splitFirst (pat : Str) : Str → Option (Str × Str)
  | [] => if startsWith pat [] then some ([], ([] : Str).drop pat.length) else none
  | c :: rest =>
    if startsWith pat (c :: rest) then some ([], (c :: rest).drop pat.length)
    else (splitFirst pat rest).map fun pq => (c :: pq.1, pq.2)

/-- Python `s.split(sep)` for a nonempty separator, with a fuel argument to
make the recursion structural; `pySplit` always supplies sufficient fuel. -/
def pySplitF (sep : Str) : Nat → Str → List Str
  | 0, s => [s]
  | fuel + 1, s =>
    match splitFirst sep s with
    | none => [s]
    | some pq => pq.1 :: pySplitF sep fuel pq.2

/-- Python `s.split(sep)` (leftmost, non-overlapping; the caller guards
against the empty separator, on which Python raises). -/
def pySplit (sep s : Str) : List Str :=
  pySplitF sep (s.length + 1) s

/-- Python `s.split(sep)` as actually invoked: `split('')` raises
`ValueError`, modelled as an error value. -/
def pySplitChecked (sep s : Str) : Except Unit (List Str) :=
  if sep = [] then .error () else .ok (pySplit sep s)

/-- One entry of the link table: the text to hyperlink and its URL.  The
builder consumes the items of `links_dict` in insertion order. -/
structure LinkEntry where
  category : Str
  url : Str
deriving DecidableEq, Repr

/-- A run of a paragraph: plain text, or a hyperlink (blue/underlined in the
produced document; only text and target are modelled). -/
inductive Run where
  | plain (text : Str)
  | hyper (url : Str) (text : Str)
deriving DecidableEq, Repr

/-- A paragraph is the ordered list of runs added to it. -/
abbrev Paragraph := List Run

/-- The per-line loop body of `create_hyperlinked_docx`: scan the link table
in order; the first entry whose text occurs in the line and whose `split`
yields exactly two parts is emitted as prefix run, hyperlink run, suffix
run; an entry occurring but not splitting into two parts is passed over; if
no entry fires, the whole line is a single plain run. -/
def lineRuns : List LinkEntry → Str → Except Unit Paragraph
  | [], line => .ok [Run.plain line]
  | e :: rest, line =>
    if containsSub e.category line then
      match pySplitChecked e.category line with
      | .error _ => .error ()
      | .ok parts =>
        match parts with
        | [a, b] => .ok [Run.plain a, Run.hyper e.url e.category, Run.plain b]
        | _ => lineRuns rest line
    else lineRuns rest line

/-- The builder loop: one paragraph per line, stopping at the first raised
error. -/
def buildParagraphs (links : List LinkEntry) : List Str → Except Unit (List Paragraph)
  | [] => .ok []
  | line :: rest =>
    match lineRuns links line with
    | .error e => .error e
    | .ok p =>
      match buildParagraphs links rest with
      | .error e => .error e
      | .ok ps => .ok (p :: ps)

/-- The function `create_hyperlinked_docx`: split the template text on
newlines and emit one paragraph per line. -/
def create_hyperlinked_docx (template_text : Str) (links_dict : List LinkEntry) :
    Except Unit (List Paragraph) :=
  buildParagraphs links_dict (pySplit ['\n'] template_text)

/-- Python `s.find(pat)` as a position: index of the leftmost occurrence. -/
def pyFindN (pat s : Str) : Option Nat :=
  match splitFirst pat s with
  | none => none
  | some pq => some pq.1.length

/-- Python `s.find(pat)`: index of the leftmost occurrence, `-1` if absent. -/
def pyFind (pat s : Str) : Int :=
  match pyFindN pat s with
  | none => -1
  | some n => n

/-- Python `s.replace(old, new)` for nonempty `old`: replace every
non-overlapping occurrence, left to right. -/
def pyReplace (s old new : Str) : Str :=
  List.intercalate new (pySplit old s)

/-- ASCII whitespace stripped by Python `str.strip()`. -/
def isPySpace (c : Char) : Bool :=
  c == ' ' || c == '\t' || c == '\n' || c == '\r' || c == '\x0b' || c == '\x0c'

/-- Python `s.strip()`: drop leading and trailing whitespace. -/
def pyStrip (s : Str) : Str :=
  ((s.dropWhile isPySpace).reverse.dropWhile isPySpace).reverse

/-- The greeting anchor literal `"Hi!"`. -/
def hiAnchor : Str := ['H', 'i', '!']

/-- The section anchor literal: the fork-and-knife emoji (U+1F37D) followed
by the variation selector U+FE0F, exactly the bytes of the source. -/
def sectionAnchor : Str := [Char.ofNat 0x1F37D, Char.ofNat 0xFE0F]

/-- The `"INTRO:"` marker literal. -/
def introMarker : Str := ['I', 'N', 'T', 'R', 'O', ':']

/-- The `"IMPORTANT_NOTES:"` marker literal. -/
def notesMarker : Str :=
  ['I', 'M', 'P', 'O', 'R', 'T', 'A', 'N', 'T', '_', 'N', 'O', 'T', 'E', 'S', ':']

/-- The intro text extracted from the AI response by the generate handler:
the part before the first `"IMPORTANT_NOTES:"`, with every `"INTRO:"`
occurrence removed, then stripped of surrounding whitespace. -/
def extractIntro (ai_response : Str) : Str :=
  pyStrip (pyReplace ((pySplit notesMarker ai_response).headD []) introMarker [])

/-- The splice step of the generate handler: when both markers are present
in the AI response, `"Hi!"` is present in the template, and the first
fork-emoji anchor lies strictly after the first `"Hi!"`, replace the span
from `"Hi!"` up to the emoji with `"Hi!\n\n" ++ intro ++ "\n\n"`; in every
other case return the template unchanged. -/
def spliceIntro (ai_response final_template : Str) : Str :=
  if containsSub introMarker ai_response && containsSub notesMarker ai_response then
    if containsSub hiAnchor final_template then
      if pyFind hiAnchor final_template < pyFind sectionAnchor final_template then
        final_template.take (pyFind hiAnchor final_template).toNat ++
          hiAnchor ++ ['\n', '\n'] ++ extractIntro ai_response ++ ['\n', '\n'] ++
          final_template.drop (pyFind sectionAnchor final_template).toNat
      else final_template
    else final_template
  else final_template

/-- The template actually handed to the builder: the splice runs only when
AI is enabled and the call returned a truthy (non-`None`, nonempty)
response; otherwise the original template is used unchanged. -/
def finalTemplate (use_ai : Bool) (ai_response : Option Str) (template_text : Str) : Str :=
  if use_ai then
    match ai_response with
    | some resp => if resp = [] then template_text else spliceIntro resp template_text
    | none => template_text
  else template_text

/-- Python-dict insertion: an existing key keeps its position and takes the
new value; a new key is appended. -/
def dictInsert (d : List LinkEntry) (e : LinkEntry) : List LinkEntry :=
  if d.any fun x => x.category == e.category then
    d.map fun x => if x.category == e.category then ⟨x.category, e.url⟩ else x
  else d ++ [e]

/-- The dict comprehension over the session links, building the ordered
pairs the builder consumes. -/
def dictOfLinks (links : List LinkEntry) : List LinkEntry :=
  links.foldl dictInsert []

/-- The document produced by one generate action once validation has
passed. -/
def generateDoc (use_ai : Bool) (ai_response : Option Str) (template_text : Str)
    (links : List LinkEntry) : Except Unit (List Paragraph) :=
  create_hyperlinked_docx (finalTemplate use_ai ai_response template_text) (dictOfLinks links)

/-- Outcome of pressing the generate button: an inline validation error and
no document, or a generated document. -/
inductive GenOutcome where
  | validationError
  | generated (doc : Except Unit (List Paragraph))
deriving DecidableEq

/-- The generate-button handler: the four validation guards in source
order, then the pipeline. -/
def generateButton (template_text : Str) (links : List LinkEntry) (use_ai : Bool)
    (api_key ai_instructions : Str) (ai_response : Option Str) : GenOutcome :=
  if template_text = [] then .validationError
  else if links = [] then .validationError
  else if use_ai ∧ api_key = [] then .validationError
  else if use_ai ∧ ai_instructions = [] then .validationError
  else .generated (generateDoc use_ai ai_response template_text links)

/-- The add-link action: append only when both fields are nonempty
(Python truthiness of the two text inputs). -/
def addLink (links : List LinkEntry) (new_category new_url : Str) : List LinkEntry :=
  if new_category ≠ [] ∧ new_url ≠ [] then links ++ [⟨new_category, new_url⟩] else links

/-- The delete action: `links.pop(idx)` for an index shown by the UI
(always in range). -/
def deleteLink (links : List LinkEntry) (idx : Nat) : List LinkEntry :=
  links.eraseIdx idx

/-- The clear-all action: reset the session list to empty. -/
def clearLinks (_links : List LinkEntry) : List LinkEntry := []

/-- Every entry of the session link table has nonempty text and URL. -/
def WFLinks (links : List LinkEntry) : Prop :=
  ∀ e ∈ links, e.category ≠ [] ∧ e.url ≠ []

/-- Characters of a string literal, for concrete test inputs. -/
def pyStr (s : String) : Str := s.data

/-- The number of non-overlapping occurrences of a nonempty pattern. -/
def countOcc (pat s : Str) : Nat := (pySplit pat s).length - 1

lemma startsWith_iff (p : Str) : ∀ s : Str, startsWith p s = true ↔ ∃ t, s = p ++ t := by
  induction p with
  | nil => intro s; simp [startsWith]
  | cons a as ih =>
    intro s
    cases s with
    | nil => simp [startsWith]
    | cons b bs =>
      simp only [startsWith, Bool.and_eq_true, beq_iff_eq, ih, List.cons_append,
        List.cons.injEq]
      constructor
      · rintro ⟨rfl, t, rfl⟩; exact ⟨t, rfl, rfl⟩
      · rintro ⟨t, rfl, rfl⟩; exact ⟨rfl, t, rfl⟩

lemma startsWith_nil (p : Str) : startsWith p [] = true ↔ p = [] := by
  cases p <;> simp [startsWith]

lemma splitFirst_eq_some (pat : Str) :
    ∀ s p q : Str, splitFirst pat s = some (p, q) → s = p ++ pat ++ q := by
  intro s
  induction s with
  | nil =>
    intro p q h
    simp only [splitFirst] at h
    split at h
    · rename_i hs
      have hp : pat = [] := (startsWith_nil pat).mp hs
      simp only [Option.some.injEq, Prod.mk.injEq] at h
      obtain ⟨h1, h2⟩ := h
      subst hp
      simp at h2
      simp [← h1, ← h2]
    · exact absurd h (by simp)
  | cons c rest ih =>
    intro p q h
    simp only [splitFirst] at h
    split at h
    · rename_i hs
      obtain ⟨t, ht⟩ := (startsWith_iff pat (c :: rest)).mp hs
      simp only [Option.some.injEq, Prod.mk.injEq] at h
      obtain ⟨h1, h2⟩ := h
      rw [ht, List.drop_left] at h2
      rw [ht, ← h1, ← h2]
      simp
    · cases hsf : splitFirst pat rest with
      | none => rw [hsf] at h; simp at h
      | some pq =>
        rw [hsf] at h
        simp only [Option.map, Option.some.injEq] at h
        have hrec := ih pq.1 pq.2 (by rw [hsf])
        have hp : c :: pq.1 = p := congrArg Prod.fst h
        have hq : pq.2 = q := congrArg Prod.snd h
        rw [← hp, ← hq]
        simp [hrec]

lemma splitFirst_length {pat s p q : Str} (h : splitFirst pat s = some (p, q)) :
    s.length = p.length + pat.length + q.length := by
  have := splitFirst_eq_some pat s p q h
  subst this
  simp [Nat.add_assoc]

lemma splitFirst_isSome (pat : Str) :
    ∀ s : Str, (splitFirst pat s).isSome = containsSub pat s := by
  intro s
  induction s with
  | nil =>
    simp only [splitFirst, containsSub]
    by_cases hs : startsWith pat [] = true
    · simp [hs]
    · simp [hs, Bool.not_eq_true] at *
  | cons c rest ih =>
    simp only [splitFirst, containsSub]
    by_cases hs : startsWith pat (c :: rest) = true
    · simp [hs]
    · simp only [Bool.not_eq_true] at hs
      simp only [hs, if_neg, Bool.false_or]
      cases hsf : splitFirst pat rest with
      | none => rw [hsf] at ih; simpa using ih
      | some pq => rw [hsf] at ih; simpa using ih

lemma splitFirst_nil_of_ne {pat : Str} (hpat : pat ≠ []) : splitFirst pat [] = none := by
  simp only [splitFirst]
  rw [if_neg]
  intro hs
  exact hpat ((startsWith_nil pat).mp hs)

lemma pySplitF_congr (pat : Str) (hpat : pat ≠ []) :
    ∀ f₁ f₂ s : _, s.length ≤ f₁ → s.length ≤ f₂ → pySplitF pat f₁ s = pySplitF pat f₂ s := by
  intro f₁
  induction f₁ with
  | zero =>
    intro f₂ s h1 h2
    have hs : s = [] := List.length_eq_zero.mp (Nat.le_zero.mp h1)
    subst hs
    cases f₂ with
    | zero => rfl
    | succ g => simp [pySplitF, splitFirst_nil_of_ne hpat]
  | succ f ih =>
    intro f₂ s h1 h2
    cases hsf : splitFirst pat s with
    | none =>
      cases f₂ with
      | zero =>
        have hs : s = [] := List.length_eq_zero.mp (Nat.le_zero.mp h2)
        subst hs
        simp [pySplitF, splitFirst_nil_of_ne hpat]
      | succ g => simp [pySplitF, hsf]
    | some pq =>
      obtain ⟨p, q⟩ := pq
      have hlen := splitFirst_length hsf
      have hppos : 0 < pat.length := List.length_pos.mpr hpat
      cases f₂ with
      | zero =>
        exfalso
        have : s.length = 0 := Nat.le_zero.mp h2
        omega
      | succ g =>
        simp only [pySplitF, hsf]
        have hq1 : q.length ≤ f := by omega
        have hq2 : q.length ≤ g := by omega
        rw [ih g q hq1 hq2]

lemma pySplitF_succ (pat : Str) (f : Nat) (s : Str) :
    pySplitF pat (f + 1) s =
      match splitFirst pat s with
      | none => [s]
      | some pq => pq.1 :: pySplitF pat f pq.2 := rfl

lemma pySplit_unfold (pat : Str) (hpat : pat ≠ []) (s : Str) :
    pySplit pat s =
      match splitFirst pat s with
      | none => [s]
      | some pq => pq.1 :: pySplit pat pq.2 := by
  show pySplitF pat (s.length + 1) s = _
  rw [pySplitF_succ]
  cases hsf : splitFirst pat s with
  | none => simp
  | some pq =>
    obtain ⟨p, q⟩ := pq
    have hlen := splitFirst_length hsf
    have hppos : 0 < pat.length := List.length_pos.mpr hpat
    simp only
    congr 1
    show pySplitF pat s.length q = pySplitF pat (q.length + 1) q
    exact pySplitF_congr pat hpat s.length (q.length + 1) q (by omega) (by omega)

lemma pySplit_ne_nil (pat s : Str) : pySplit pat s ≠ [] := by
  simp only [pySplit, pySplitF]
  cases splitFirst pat s <;> simp

lemma pySplit_length_pos (pat s : Str) : 0 < (pySplit pat s).length :=
  List.length_pos.mpr (pySplit_ne_nil pat s)

lemma pySplit_length_one {pat s : Str} (hpat : pat ≠ [])
    (h : (pySplit pat s).length = 1) : pySplit pat s = [s] ∧ splitFirst pat s = none := by
  rw [pySplit_unfold pat hpat] at h ⊢
  cases hsf : splitFirst pat s with
  | none => simp
  | some pq =>
    exfalso
    rw [hsf] at h
    simp only [List.length_cons] at h
    have := pySplit_length_pos pat pq.2
    omega

lemma contains_eq_false_iff {pat s : Str} :
    containsSub pat s = false ↔ splitFirst pat s = none := by
  rw [← splitFirst_isSome]
  cases splitFirst pat s <;> simp

lemma countOcc_zero {pat s : Str} (hpat : pat ≠ []) :
    countOcc pat s = 0 ↔ containsSub pat s = false := by
  unfold countOcc
  constructor
  · intro h
    have hpos := pySplit_length_pos pat s
    have hone : (pySplit pat s).length = 1 := by omega
    exact contains_eq_false_iff.mpr (pySplit_length_one hpat hone).2
  · intro h
    have hn : splitFirst pat s = none := contains_eq_false_iff.mp h
    rw [pySplit_unfold pat hpat, hn]
    simp

lemma countOcc_one {pat s : Str} (h : countOcc pat s = 1) :
    (pySplit pat s).length = 2 := by
  have := pySplit_length_pos pat s
  unfold countOcc at h
  omega

lemma pySplit_two {pat s : Str} (hpat : pat ≠ []) (h : (pySplit pat s).length = 2) :
    ∃ a b, pySplit pat s = [a, b] ∧ s = a ++ pat ++ b := by
  rw [pySplit_unfold pat hpat] at h ⊢
  cases hsf : splitFirst pat s with
  | none => rw [hsf] at h; simp at h
  | some pq =>
    rw [hsf] at h
    simp only [List.length_cons] at h
    have h1 : (pySplit pat pq.2).length = 1 := by omega
    obtain ⟨hq, -⟩ := pySplit_length_one hpat h1
    refine ⟨pq.1, pq.2, ?_, ?_⟩
    · simp [hq]
    · exact splitFirst_eq_some pat s pq.1 pq.2 (by rw [hsf])

lemma startsWith_single (c a : Char) (t : Str) :
    startsWith [c] (a :: t) = (c == a) := by
  simp [startsWith]

lemma splitFirst_single_append (c : Char) :
    ∀ s : Str, splitFirst [c] (s ++ [c]) =
      match splitFirst [c] s with
      | none => some (s, [])
      | some pq => some (pq.1, pq.2 ++ [c]) := by
  intro s
  induction s with
  | nil => simp [splitFirst, startsWith]
  | cons a t ih =>
    by_cases hca : c = a
    · subst hca
      simp [splitFirst, startsWith]
    · have h1 : startsWith [c] (a :: (t ++ [c])) = false := by
        rw [startsWith_single]
        exact beq_eq_false_iff_ne.mpr hca
      have h2 : startsWith [c] (a :: t) = false := by
        rw [startsWith_single]
        exact beq_eq_false_iff_ne.mpr hca
      simp only [List.cons_append, splitFirst, h1, h2, Bool.false_eq_true, if_false]
      cases hsf : splitFirst [c] t with
      | none => rw [hsf] at ih; simp [ih, hsf, h1, h2]
      | some pq => rw [hsf] at ih; simp [ih, hsf, h1, h2]

lemma pySplit_append_char_aux (c : Char) :
    ∀ n (s : Str), s.length ≤ n →
      pySplit [c] (s ++ [c]) = pySplit [c] s ++ [[]] := by
  intro n
  induction n with
  | zero =>
    intro s h
    have hs : s = [] := List.length_eq_zero.mp (Nat.le_zero.mp h)
    subst hs
    simp [pySplit, pySplitF, splitFirst, startsWith]
  | succ n ih =>
    intro s hle
    have hc : ([c] : Str) ≠ [] := by simp
    rw [pySplit_unfold [c] hc (s ++ [c]), pySplit_unfold [c] hc s, splitFirst_single_append]
    cases hsf : splitFirst [c] s with
    | none =>
      simp [pySplit, pySplitF, splitFirst_nil_of_ne hc]
    | some pq =>
      simp only []
      have hlen := splitFirst_length (p := pq.1) (q := pq.2) (by rw [hsf])
      rw [ih pq.2 (by simp at hlen; omega)]
      simp

lemma pySplit_newline_append (s : Str) :
    pySplit ['\n'] (s ++ ['\n']) = pySplit ['\n'] s ++ [[]] :=
  pySplit_append_char_aux '\n' s.length s le_rfl

lemma lineRuns_no_contains :
    ∀ (L : List LinkEntry) (line : Str),
      (∀ e ∈ L, containsSub e.category line = false) →
      lineRuns L line = .ok [Run.plain line] := by
  intro L
  induction L with
  | nil => intro line _; rfl
  | cons e rest ih =>
    intro line h
    have he := h e (List.mem_cons_self e rest)
    simp only [lineRuns, he, Bool.false_eq_true, if_false]
    exact ih line fun x hx => h x (List.mem_cons_of_mem e hx)

lemma lineRuns_nil_line :
    ∀ (L : List LinkEntry) (P : Paragraph), lineRuns L [] = .ok P → P = [Run.plain []] := by
  intro L
  induction L with
  | nil =>
    intro P h
    simp only [lineRuns, Except.ok.injEq] at h
    exact h.symm
  | cons e rest ih =>
    intro P h
    by_cases hc : e.category = []
    · have hct : containsSub e.category [] = true := by rw [hc]; rfl
      have hchk : pySplitChecked e.category [] = .error () := by simp [pySplitChecked, hc]
      simp [lineRuns, hct, hchk] at h
    · have hcf : containsSub e.category [] = false := by
        show startsWith e.category [] = false
        cases hcc : e.category with
        | nil => exact absurd hcc hc
        | cons a t => rfl
      simp only [lineRuns, hcf, Bool.false_eq_true, if_false] at h
      exact ih P h

lemma lineRuns_ok :
    ∀ (L : List LinkEntry) (line : Str),
      (∀ e ∈ L, e.category ≠ []) → ∃ P, lineRuns L line = .ok P := by
  intro L
  induction L with
  | nil => intro line _; exact ⟨[Run.plain line], rfl⟩
  | cons e rest ih =>
    intro line h
    have hcat := h e (List.mem_cons_self e rest)
    have hrest : ∀ x ∈ rest, x.category ≠ [] := fun x hx => h x (List.mem_cons_of_mem e hx)
    by_cases hc : containsSub e.category line = true
    · have hchk : pySplitChecked e.category line = .ok (pySplit e.category line) := by
        simp [pySplitChecked, hcat]
      rcases hps : pySplit e.category line with _ | ⟨a, _ | ⟨b, _ | ⟨c2, tl⟩⟩⟩
      · exact absurd hps (pySplit_ne_nil _ _)
      · obtain ⟨P, hP⟩ := ih line hrest
        exact ⟨P, by simp [lineRuns, hc, hchk, hps, hP]⟩
      · exact ⟨[Run.plain a, Run.hyper e.url e.category, Run.plain b],
          by simp [lineRuns, hc, hchk, hps]⟩
      · obtain ⟨P, hP⟩ := ih line hrest
        exact ⟨P, by simp [lineRuns, hc, hchk, hps, hP]⟩
    · simp only [Bool.not_eq_true] at hc
      obtain ⟨P, hP⟩ := ih line hrest
      exact ⟨P, by simp [lineRuns, hc, hP]⟩

lemma lineRuns_skip_all :
    ∀ (L : List LinkEntry) (line : Str),
      (∀ e ∈ L, e.category ≠ []) →
      (∀ e ∈ L, (pySplit e.category line).length ≠ 2) →
      lineRuns L line = .ok [Run.plain line] := by
  intro L
  induction L with
  | nil => intro line _ _; rfl
  | cons e rest ih =>
    intro line h h2
    have hcat := h e (List.mem_cons_self e rest)
    have hlen := h2 e (List.mem_cons_self e rest)
    have hrest : ∀ x ∈ rest, x.category ≠ [] := fun x hx => h x (List.mem_cons_of_mem e hx)
    have hrest2 : ∀ x ∈ rest, (pySplit x.category line).length ≠ 2 :=
      fun x hx => h2 x (List.mem_cons_of_mem e hx)
    have hih := ih line hrest hrest2
    by_cases hc : containsSub e.category line = true
    · have hchk : pySplitChecked e.category line = .ok (pySplit e.category line) := by
        simp [pySplitChecked, hcat]
      rcases hps : pySplit e.category line with _ | ⟨a, _ | ⟨b, _ | ⟨c2, tl⟩⟩⟩
      · exact absurd hps (pySplit_ne_nil _ _)
      · simp [lineRuns, hc, hchk, hps, hih]
      · rw [hps] at hlen; simp at hlen
      · simp [lineRuns, hc, hchk, hps, hih]
    · simp only [Bool.not_eq_true] at hc
      simp [lineRuns, hc, hih]

lemma lineRuns_first_two :
    ∀ (L₁ : List LinkEntry) (e : LinkEntry) (L₂ : List LinkEntry) (line a b : Str),
      (∀ x ∈ L₁, x.category ≠ []) → e.category ≠ [] →
      (∀ x ∈ L₁, (pySplit x.category line).length ≠ 2) →
      pySplit e.category line = [a, b] →
      lineRuns (L₁ ++ e :: L₂) line =
        .ok [Run.plain a, Run.hyper e.url e.category, Run.plain b] := by
  intro L₁
  induction L₁ with
  | nil =>
    intro e L₂ line a b _ hcat _ hsplit
    have hcontains : containsSub e.category line = true := by
      by_contra hf
      simp only [Bool.not_eq_true] at hf
      have hn := contains_eq_false_iff.mp hf
      rw [pySplit_unfold e.category hcat, hn] at hsplit
      simp at hsplit
    have hchk : pySplitChecked e.category line = .ok (pySplit e.category line) := by
      simp [pySplitChecked, hcat]
    simp [lineRuns, hcontains, hchk, hsplit]
  | cons x rest ih =>
    intro e L₂ line a b h1 hcat h2 hsplit
    have hxcat := h1 x (List.mem_cons_self x rest)
    have hxlen := h2 x (List.mem_cons_self x rest)
    have hr1 : ∀ y ∈ rest, y.category ≠ [] := fun y hy => h1 y (List.mem_cons_of_mem x hy)
    have hr2 : ∀ y ∈ rest, (pySplit y.category line).length ≠ 2 :=
      fun y hy => h2 y (List.mem_cons_of_mem x hy)
    have hih := ih e L₂ line a b hr1 hcat hr2 hsplit
    by_cases hc : containsSub x.category line = true
    · have hchk : pySplitChecked x.category line = .ok (pySplit x.category line) := by
        simp [pySplitChecked, hxcat]
      rcases hps : pySplit x.category line with _ | ⟨u, _ | ⟨v, _ | ⟨w, tl⟩⟩⟩
      · exact absurd hps (pySplit_ne_nil _ _)
      · simp [lineRuns, hc, hchk, hps, hih]
      · rw [hps] at hxlen; simp at hxlen
      · simp [lineRuns, hc, hchk, hps, hih]
    · simp only [Bool.not_eq_true] at hc
      simp [lineRuns, hc, hih]

lemma buildParagraphs_spec :
    ∀ (L : List LinkEntry) (lines : List Str) (doc : List Paragraph),
      buildParagraphs L lines = .ok doc →
      doc.length = lines.length ∧
        ∀ (i : Nat) (line : Str), lines.get? i = some line →
          ∃ p, doc.get? i = some p ∧ lineRuns L line = .ok p := by
  intro L lines
  induction lines with
  | nil =>
    intro doc h
    simp only [buildParagraphs, Except.ok.injEq] at h
    subst h
    exact ⟨rfl, by intro i line hl; simp at hl⟩
  | cons line rest ih =>
    intro doc h
    simp only [buildParagraphs] at h
    cases hlr : lineRuns L line with
    | error e => rw [hlr] at h; simp at h
    | ok p =>
      rw [hlr] at h
      cases hbp : buildParagraphs L rest with
      | error e => rw [hbp] at h; simp at h
      | ok ps =>
        rw [hbp] at h
        simp only [Except.ok.injEq] at h
        subst h
        obtain ⟨hlen, hidx⟩ := ih ps hbp
        refine ⟨by simp [hlen], ?_⟩
        intro i l hl
        cases i with
        | zero =>
          simp only [List.get?_cons_zero, Option.some.injEq] at hl
          subst hl
          exact ⟨p, rfl, hlr⟩
        | succ n =>
          simp only [List.get?_cons_succ] at hl ⊢
          exact hidx n l hl

lemma buildParagraphs_ok :
    ∀ (L : List LinkEntry) (lines : List Str),
      (∀ e ∈ L, e.category ≠ []) → ∃ doc, buildParagraphs L lines = .ok doc := by
  intro L lines h
  induction lines with
  | nil => exact ⟨[], rfl⟩
  | cons line rest ih =>
    obtain ⟨P, hP⟩ := lineRuns_ok L line h
    obtain ⟨ps, hps⟩ := ih
    exact ⟨P :: ps, by simp [buildParagraphs, hP, hps]⟩

lemma dictInsert_nonempty {d : List LinkEntry} {e : LinkEntry}
    (hd : ∀ x ∈ d, x.category ≠ []) (he : e.category ≠ []) :
    ∀ x ∈ dictInsert d e, x.category ≠ [] := by
  intro x hx
  unfold dictInsert at hx
  split at hx
  · obtain ⟨y, hy, hxy⟩ := List.mem_map.mp hx
    by_cases hyc : (y.category == e.category) = true
    · rw [if_pos hyc] at hxy
      rw [← hxy]
      exact hd y hy
    · rw [if_neg hyc] at hxy
      rw [← hxy]
      exact hd y hy
  · rcases List.mem_append.mp hx with h | h
    · exact hd x h
    · simp only [List.mem_singleton] at h
      rw [h]
      exact he

lemma dictOfLinks_nonempty {links : List LinkEntry} (h : WFLinks links) :
    ∀ x ∈ dictOfLinks links, x.category ≠ [] := by
  suffices H : ∀ (ls acc : List LinkEntry),
      (∀ x ∈ acc, x.category ≠ []) → (∀ x ∈ ls, x.category ≠ []) →
      ∀ x ∈ List.foldl dictInsert acc ls, x.category ≠ [] by
    exact H links [] (by simp) (fun x hx => (h x hx).1)
  intro ls
  induction ls with
  | nil => intro acc hacc _ x hx; exact hacc x hx
  | cons e rest ih =>
    intro acc hacc hls x hx
    simp only [List.foldl_cons] at hx
    exact ih (dictInsert acc e)
      (dictInsert_nonempty hacc (hls e (List.mem_cons_self e rest)))
      (fun y hy => hls y (List.mem_cons_of_mem e hy)) x hx

lemma mem_of_mem_eraseIdx :
    ∀ (l : List LinkEntry) (i : Nat) (x : LinkEntry), x ∈ l.eraseIdx i → x ∈ l := by
  intro l
  induction l with
  | nil => intro i x hx; simp [List.eraseIdx] at hx
  | cons a as ih =>
    intro i x hx
    cases i with
    | zero => exact List.mem_cons_of_mem a hx
    | succ n =>
      simp only [List.eraseIdx] at hx
      rcases List.mem_cons.mp hx with h | h
      · exact h ▸ List.mem_cons_self a as
      · exact List.mem_cons_of_mem a (ih n x h)

/-- C1: for every template and link table, a document produced by the
builder has exactly one paragraph per element of the newline-split of the
template; empty lines yield empty paragraphs, the empty template yields
exactly one empty paragraph, and a trailing newline yields a trailing empty
paragraph. -/
theorem C1_paragraph_per_line (T : Str) (L : List LinkEntry) (doc : List Paragraph)
    (h : create_hyperlinked_docx T L = .ok doc) :
    doc.length = (pySplit ['\n'] T).length ∧
      (∀ i : Nat, (pySplit ['\n'] T).get? i = some [] → doc.get? i = some [Run.plain []]) ∧
      (T = [] → doc = [[Run.plain []]]) ∧
      (∀ T' : Str, T = T' ++ ['\n'] → doc.getLast? = some [Run.plain []]) := by
  obtain ⟨hlen, hidx⟩ := buildParagraphs_spec L (pySplit ['\n'] T) doc h
  have hempty : ∀ i : Nat, (pySplit ['\n'] T).get? i = some [] →
      doc.get? i = some [Run.plain []] := by
    intro i hi
    obtain ⟨p, hp, hlr⟩ := hidx i [] hi
    have := lineRuns_nil_line L p hlr
    rw [← this]
    exact hp
  refine ⟨hlen, hempty, ?_, ?_⟩
  · intro hT
    subst hT
    have hsplit : pySplit ['\n'] ([] : Str) = [[]] := by decide
    rw [hsplit] at hlen
    obtain ⟨p, hp⟩ := List.length_eq_one.mp hlen
    have h0 : doc.get? 0 = some [Run.plain []] := hempty 0 (by rw [hsplit]; rfl)
    rw [hp] at h0
    simp only [List.get?_cons_zero, Option.some.injEq] at h0
    rw [hp, h0]
  · intro T' hT
    subst hT
    have hsp := pySplit_newline_append T'
    have hline : (pySplit ['\n'] (T' ++ ['\n'])).get? (pySplit ['\n'] T').length =
        some [] := by
      rw [hsp, List.get?_append_right (le_refl _)]
      simp
    have h0 := hempty _ hline
    rw [List.getLast?_eq_get?, hlen, hsp]
    simpa using h0

theorem C1_witness :
    ([[Run.plain (pyStr "Hi!")], [Run.plain []]] : List Paragraph).length =
        (pySplit ['\n'] (pyStr "Hi!\n")).length ∧
      (∀ i : Nat, (pySplit ['\n'] (pyStr "Hi!\n")).get? i = some [] →
        ([[Run.plain (pyStr "Hi!")], [Run.plain []]] : List Paragraph).get? i =
          some [Run.plain []]) ∧
      (pyStr "Hi!\n" = [] →
        [[Run.plain (pyStr "Hi!")], [Run.plain []]] = [[Run.plain []]]) ∧
      (∀ T' : Str, pyStr "Hi!\n" = T' ++ ['\n'] →
        ([[Run.plain (pyStr "Hi!")], [Run.plain []]] : List Paragraph).getLast? =
          some [Run.plain []]) :=
  C1_paragraph_per_line (pyStr "Hi!\n") [⟨pyStr "a", pyStr "u"⟩]
    [[Run.plain (pyStr "Hi!")], [Run.plain []]] (by decide)

/-- C5: a line in which no link entry's text occurs as a substring is
emitted as exactly one plain run equal to the full line, with no hyperlink
run. -/
theorem C5_no_match_single_plain_run (L : List LinkEntry) (line : Str)
    (h : ∀ e ∈ L, containsSub e.category line = false) :
    lineRuns L line = .ok [Run.plain line] :=
  lineRuns_no_contains L line h

theorem C5_witness :
    lineRuns [⟨pyStr "ab", pyStr "u"⟩] (pyStr "xyz") = .ok [Run.plain (pyStr "xyz")] :=
  C5_no_match_single_plain_run [⟨pyStr "ab", pyStr "u"⟩] (pyStr "xyz") (by decide)

/-- C8: when the AI call fails (no content returned), document generation
still proceeds and the document is built from the original, unmodified
template text. -/
theorem C8_ai_failure_uses_original_template (use_ai : Bool) (T : Str)
    (links : List LinkEntry) :
    generateDoc use_ai none T links = create_hyperlinked_docx T (dictOfLinks links) := by
  unfold generateDoc finalTemplate
  cases use_ai <;> rfl

/-- C9: pressing generate aborts with a validation error and produces no
document exactly when the template is empty, the link table is empty, or AI
is enabled with an empty credential or empty instructions; otherwise the
document pipeline runs. -/
theorem C9_validation_guards (t : Str) (links : List LinkEntry) (use_ai : Bool)
    (api_key ai_instructions : Str) (ai_response : Option Str) :
    (generateButton t links use_ai api_key ai_instructions ai_response = .validationError ↔
      t = [] ∨ links = [] ∨ (use_ai = true ∧ api_key = []) ∨
        (use_ai = true ∧ ai_instructions = [])) ∧
      (generateButton t links use_ai api_key ai_instructions ai_response ≠
          .validationError →
        generateButton t links use_ai api_key ai_instructions ai_response =
          .generated (generateDoc use_ai ai_response t links)) := by
  unfold generateButton
  split_ifs with h1 h2 h3 h4 <;> simp_all

theorem C9_witness :
    generateButton (pyStr "T") [⟨pyStr "a", pyStr "u"⟩] false [] [] none =
      .generated (generateDoc false none (pyStr "T") [⟨pyStr "a", pyStr "u"⟩]) :=
  (C9_validation_guards (pyStr "T") [⟨pyStr "a", pyStr "u"⟩] false [] [] none).2
    (by decide)

/-- C10: the add action appends an entry only when both fields are
nonempty, delete and clear preserve the all-nonempty invariant, and the
builder applied to the dict built from a well-formed session table never
reaches the failing empty-separator split: it always returns a document. -/
theorem C10_link_table_invariant (links : List LinkEntry) (hwf : WFLinks links) :
    (∀ c u : Str, WFLinks (addLink links c u)) ∧
      (∀ idx : Nat, WFLinks (deleteLink links idx)) ∧
      WFLinks (clearLinks links) ∧
      (∀ T : Str, ∃ doc, create_hyperlinked_docx T (dictOfLinks links) = .ok doc) := by
  refine ⟨?_, ?_, ?_, ?_⟩
  · intro c u e he
    unfold addLink at he
    split at he
    · rcases List.mem_append.mp he with h | h
      · exact hwf e h
      · simp only [List.mem_singleton] at h
        subst h
        rename_i hcu
        exact ⟨hcu.1, hcu.2⟩
    · exact hwf e he
  · intro idx e he
    exact hwf e (mem_of_mem_eraseIdx links idx e he)
  · intro e he
    simp [clearLinks] at he
  · intro T
    exact buildParagraphs_ok (dictOfLinks links) (pySplit ['\n'] T)
      (dictOfLinks_nonempty hwf)

theorem C10_witness :
    (∀ c u : Str, WFLinks (addLink [⟨pyStr "a", pyStr "u"⟩] c u)) ∧
      (∀ idx : Nat, WFLinks (deleteLink [⟨pyStr "a", pyStr "u"⟩] idx)) ∧
      WFLinks (clearLinks [⟨pyStr "a", pyStr "u"⟩]) ∧
      (∀ T : Str, ∃ doc,
        create_hyperlinked_docx T (dictOfLinks [⟨pyStr "a", pyStr "u"⟩]) = .ok doc) :=
  C10_link_table_invariant [⟨pyStr "a", pyStr "u"⟩] (by unfold WFLinks; decide)

/-- C2: a line containing exactly one occurrence of exactly one link
entry's text is emitted as exactly three runs — the plain text before the
match, a hyperlink with that entry's text and URL, and the plain text after
the match — whose concatenation reproduces the line. -/
theorem C2_single_match_three_runs (L : List LinkEntry) (e : LinkEntry) (line : Str)
    (hmem : e ∈ L)
    (hwf : ∀ x ∈ L, x.category ≠ [])
    (hdistinct : List.Pairwise (fun a b => a.category ≠ b.category) L)
    (hone : countOcc e.category line = 1)
    (hothers : ∀ x ∈ L, x.category ≠ e.category → countOcc x.category line = 0) :
    ∃ a b, lineRuns L line = .ok [Run.plain a, Run.hyper e.url e.category, Run.plain b] ∧
      a ++ e.category ++ b = line := by
  obtain ⟨L₁, L₂, hL⟩ := List.append_of_mem hmem
  subst hL
  have hcat : e.category ≠ [] := hwf e (List.mem_append_right L₁ (List.mem_cons_self e L₂))
  obtain ⟨a, b, hab, hrec⟩ := pySplit_two hcat (countOcc_one hone)
  have hL₁ : ∀ x ∈ L₁, (pySplit x.category line).length ≠ 2 := by
    intro x hx
    have hxe : x.category ≠ e.category :=
      (List.pairwise_append.mp hdistinct).2.2 x hx e (List.mem_cons_self e L₂)
    have hxcat : x.category ≠ [] := hwf x (List.mem_append_left _ hx)
    have h0 := hothers x (List.mem_append_left _ hx) hxe
    have hcf := (countOcc_zero hxcat).mp h0
    rw [pySplit_unfold x.category hxcat, contains_eq_false_iff.mp hcf]
    simp
  exact ⟨a, b, lineRuns_first_two L₁ e L₂ line a b
    (fun x hx => hwf x (List.mem_append_left _ hx)) hcat hL₁ hab, hrec.symm⟩

theorem C2_witness :
    ∃ a b,
      lineRuns [⟨pyStr "Instructions Brief", pyStr "http://x"⟩]
          (pyStr "Visit: Instructions Brief") =
        .ok [Run.plain a, Run.hyper (pyStr "http://x") (pyStr "Instructions Brief"),
          Run.plain b] ∧
      a ++ pyStr "Instructions Brief" ++ b = pyStr "Visit: Instructions Brief" :=
  C2_single_match_three_runs [⟨pyStr "Instructions Brief", pyStr "http://x"⟩]
    ⟨pyStr "Instructions Brief", pyStr "http://x"⟩ (pyStr "Visit: Instructions Brief")
    (by decide) (by decide) (by simp) (by decide) (by decide)

/-- C3 counterexample: link text `"a"` occurs twice in the line `"a a"`;
the claim says the builder splits on the first occurrence and hyperlinks
it, but the code emits one plain run with no hyperlink at all (the
two-part split test fails, so the entry is skipped). -/
theorem C3_counterexample :
    lineRuns [⟨['a'], ['u']⟩] ['a', ' ', 'a'] = .ok [Run.plain ['a', ' ', 'a']] ∧
      lineRuns [⟨['a'], ['u']⟩] ['a', ' ', 'a'] ≠
        .ok [Run.plain [], Run.hyper ['u'] ['a'], Run.plain [' ', 'a']] := by
  decide

/-- C3 amended: an entry whose text occurs in a line other than exactly
once is skipped entirely; when every entry's text occurs zero times or more
than once, the line is emitted as a single plain run in which every
occurrence remains literal plain text, with no hyperlink. -/
theorem C3_multi_occurrence_entry_skipped (L : List LinkEntry) (line : Str)
    (hwf : ∀ x ∈ L, x.category ≠ [])
    (h : ∀ x ∈ L, countOcc x.category line ≠ 1) :
    lineRuns L line = .ok [Run.plain line] := by
  apply lineRuns_skip_all L line hwf
  intro x hx h2
  have hne := h x hx
  unfold countOcc at hne
  rw [h2] at hne
  exact hne rfl

theorem C3_witness :
    lineRuns [⟨['a'], ['u']⟩] ['a', ' ', 'a', '!'] =
      .ok [Run.plain ['a', ' ', 'a', '!']] :=
  C3_multi_occurrence_entry_skipped [⟨['a'], ['u']⟩] ['a', ' ', 'a', '!']
    (by decide) (by decide)

/-- C4 counterexample: the line `"aba"` contains the texts of both entries
`("a", "u")` and `("b", "v")`; the claim says the entry earlier in table
order (`"a"`) is hyperlinked, but `"a"` occurs twice, is skipped, and the
later entry `"b"` is the one hyperlinked. -/
theorem C4_counterexample :
    lineRuns [⟨['a'], ['u']⟩, ⟨['b'], ['v']⟩] ['a', 'b', 'a'] =
        .ok [Run.plain ['a'], Run.hyper ['v'] ['b'], Run.plain ['a']] ∧
      Run.hyper ['u'] ['a'] ∉
        [Run.plain ['a'], Run.hyper ['v'] ['b'], Run.plain ['a']] := by
  decide

/-- C4 amended: among the entries whose text occurs exactly once in the
line, the one earliest in table order is hyperlinked, regardless of which
occurs first positionally; entries whose text occurs more than once (or not
at all) are passed over. -/
theorem C4_table_order_among_single_occurrence (L₁ : List LinkEntry) (e : LinkEntry)
    (L₂ : List LinkEntry) (line : Str)
    (hwf : ∀ x ∈ L₁ ++ e :: L₂, x.category ≠ [])
    (hskip : ∀ x ∈ L₁, countOcc x.category line ≠ 1)
    (hone : countOcc e.category line = 1) :
    ∃ a b, lineRuns (L₁ ++ e :: L₂) line =
        .ok [Run.plain a, Run.hyper e.url e.category, Run.plain b] ∧
      a ++ e.category ++ b = line := by
  have hcat : e.category ≠ [] :=
    hwf e (List.mem_append_right L₁ (List.mem_cons_self e L₂))
  obtain ⟨a, b, hab, hrec⟩ := pySplit_two hcat (countOcc_one hone)
  have hL₁ : ∀ x ∈ L₁, (pySplit x.category line).length ≠ 2 := by
    intro x hx h2
    have hne := hskip x hx
    unfold countOcc at hne
    rw [h2] at hne
    exact hne rfl
  exact ⟨a, b, lineRuns_first_two L₁ e L₂ line a b
    (fun x hx => hwf x (List.mem_append_left _ hx)) hcat hL₁ hab, hrec.symm⟩

theorem C4_witness :
    ∃ a b,
      lineRuns [⟨['b', 'b'], ['u']⟩, ⟨['a'], ['v']⟩] ['a', ' ', 'b', 'b'] =
        .ok [Run.plain a, Run.hyper ['u'] ['b', 'b'], Run.plain b] ∧
      a ++ ['b', 'b'] ++ b = ['a', ' ', 'b', 'b'] :=
  C4_table_order_among_single_occurrence [] ⟨['b', 'b'], ['u']⟩ [⟨['a'], ['v']⟩]
    ['a', ' ', 'b', 'b'] (by decide) (by decide) (by decide)

lemma contains_of_findN {pat s : Str} {i : Nat} (h : pyFindN pat s = some i) :
    containsSub pat s = true := by
  unfold pyFindN at h
  cases hsf : splitFirst pat s with
  | none => rw [hsf] at h; simp at h
  | some pq => rw [← splitFirst_isSome, hsf]; rfl

lemma findN_decomp {pat s : Str} {i : Nat} (h : pyFindN pat s = some i) :
    ∃ pre post, splitFirst pat s = some (pre, post) ∧ pre.length = i ∧
      s = pre ++ pat ++ post := by
  unfold pyFindN at h
  cases hsf : splitFirst pat s with
  | none => rw [hsf] at h; simp at h
  | some pq =>
    rw [hsf] at h
    simp only [Option.some.injEq] at h
    exact ⟨pq.1, pq.2, rfl, h, splitFirst_eq_some pat s pq.1 pq.2 hsf⟩

/-- C6: with both markers in the AI response, `"Hi!"` in the template, and
the first fork-emoji anchor strictly after the first `"Hi!"`, the spliced
template is the text before `"Hi!"`, then `"Hi!"`, a blank line, the intro
text extracted from the response (before the first `"IMPORTANT_NOTES:"`,
with the `"INTRO:"` marker removed and trimmed), a blank line, then the
original template text from the emoji anchor onward unchanged. -/
theorem C6_splice_shape (resp T : Str) (i j : Nat)
    (h1 : containsSub introMarker resp = true)
    (h2 : containsSub notesMarker resp = true)
    (hi : pyFindN hiAnchor T = some i)
    (hj : pyFindN sectionAnchor T = some j)
    (hij : i < j) :
    ∃ B D P Q,
      T = T.take i ++ hiAnchor ++ B ∧
      T.drop j = sectionAnchor ++ D ∧
      resp = P ++ notesMarker ++ Q ∧
      extractIntro resp = pyStrip (pyReplace P introMarker []) ∧
      spliceIntro resp T =
        T.take i ++ hiAnchor ++ ['\n', '\n'] ++ extractIntro resp ++ ['\n', '\n'] ++
          sectionAnchor ++ D := by
  obtain ⟨preH, postH, hsfH, hlenH, hdecH⟩ := findN_decomp hi
  obtain ⟨preS, postS, hsfS, hlenS, hdecS⟩ := findN_decomp hj
  have htake : T.take i = preH := by
    rw [hdecH, ← hlenH, List.append_assoc, List.take_left]
  have hdrop : T.drop j = sectionAnchor ++ postS := by
    rw [hdecS, ← hlenS, List.append_assoc, List.drop_left]
  have hsfR : (splitFirst notesMarker resp).isSome = true := by
    rw [splitFirst_isSome, h2]
  obtain ⟨⟨P, Q⟩, hPQ⟩ := Option.isSome_iff_exists.mp hsfR
  have hrespdec : resp = P ++ notesMarker ++ Q := splitFirst_eq_some _ _ _ _ hPQ
  have hnm : (notesMarker : Str) ≠ [] := by decide
  have hhead : (pySplit notesMarker resp).headD [] = P := by
    rw [pySplit_unfold notesMarker hnm, hPQ]
    rfl
  have hextract : extractIntro resp = pyStrip (pyReplace P introMarker []) := by
    unfold extractIntro
    rw [hhead]
  refine ⟨postH, postS, P, Q, ?_, hdrop, hrespdec, hextract, ?_⟩
  · rw [htake, ← hdecH]
  · have hfind1 : pyFind hiAnchor T = (i : Int) := by unfold pyFind; rw [hi]
    have hfind2 : pyFind sectionAnchor T = (j : Int) := by unfold pyFind; rw [hj]
    have hcT : containsSub hiAnchor T = true := contains_of_findN hi
    unfold spliceIntro
    rw [h1, h2, hcT]
    simp only [Bool.and_self, if_true]
    rw [hfind1, hfind2, if_pos (by exact_mod_cast hij)]
    rw [Int.toNat_natCast, Int.toNat_natCast, hdrop]
    simp [List.append_assoc]

theorem C6_witness :
    ∃ B D P Q,
      (pyStr "Hi! dinner🍽️ soon") =
        (pyStr "Hi! dinner🍽️ soon").take 0 ++ hiAnchor ++ B ∧
      (pyStr "Hi! dinner🍽️ soon").drop 10 = sectionAnchor ++ D ∧
      (pyStr "INTRO:\nHello there.\n\nIMPORTANT_NOTES:\n- note one") =
        P ++ notesMarker ++ Q ∧
      extractIntro (pyStr "INTRO:\nHello there.\n\nIMPORTANT_NOTES:\n- note one") =
        pyStrip (pyReplace P introMarker []) ∧
      spliceIntro (pyStr "INTRO:\nHello there.\n\nIMPORTANT_NOTES:\n- note one")
          (pyStr "Hi! dinner🍽️ soon") =
        (pyStr "Hi! dinner🍽️ soon").take 0 ++ hiAnchor ++ ['\n', '\n'] ++
          extractIntro (pyStr "INTRO:\nHello there.\n\nIMPORTANT_NOTES:\n- note one") ++
          ['\n', '\n'] ++ sectionAnchor ++ D :=
  C6_splice_shape (pyStr "INTRO:\nHello there.\n\nIMPORTANT_NOTES:\n- note one")
    (pyStr "Hi! dinner🍽️ soon") 0 10 (by decide) (by decide) (by decide) (by decide)
    (by decide)

/-- C7: the splice is a no-op whenever the response lacks the `"INTRO:"`
marker, or lacks the `"IMPORTANT_NOTES:"` marker, or the template lacks
`"Hi!"`, or the fork-emoji anchor is absent or its first occurrence is at
or before the first `"Hi!"`. -/
theorem C7_splice_noop (resp T : Str)
    (h : containsSub introMarker resp = false ∨ containsSub notesMarker resp = false ∨
      containsSub hiAnchor T = false ∨ pyFind sectionAnchor T ≤ pyFind hiAnchor T) :
    spliceIntro resp T = T := by
  unfold spliceIntro
  split_ifs with hg1 hg2 hg3
  · exfalso
    rw [Bool.and_eq_true] at hg1
    rcases h with h | h | h | h
    · rw [h] at hg1; exact Bool.false_ne_true hg1.1
    · rw [h] at hg1; exact Bool.false_ne_true hg1.2
    · rw [h] at hg2; exact Bool.false_ne_true hg2
    · exact absurd hg3 (not_lt.mpr h)
  · rfl
  · rfl
  · rfl

theorem C7_witness : spliceIntro (pyStr "hello") (pyStr "Hi! fork🍽️!") =
    pyStr "Hi! fork🍽️!" :=
  C7_splice_noop (pyStr "hello") (pyStr "Hi! fork🍽️!") (by left; decide)

example :
    spliceIntro (pyStr "INTRO: ok IMPORTANT_NOTES: n") (pyStr "xHi!yy🍽️z") =
      pyStr "xHi!\n\nok\n\n🍽️z" := by decide

example :
    spliceIntro (pyStr "INTRO: ok") (pyStr "xHi!yy🍽️z") = pyStr "xHi!yy🍽️z" := by decide

example : extractIntro (pyStr "INTRO:\nHello there.\n\nIMPORTANT_NOTES:\n- note one") =
    pyStr "Hello there." := by decide

example :
    create_hyperlinked_docx
      (('H' :: 'i' :: '!' :: '\n' :: ['V', 'i', 's', 'i', 't', ':', ' ', 'a', 'b']))
      [⟨['a', 'b'], ['u']⟩] =
    .ok [[Run.plain ['H', 'i', '!']],
         [Run.plain ['V', 'i', 's', 'i', 't', ':', ' '], Run.hyper ['u'] ['a', 'b'],
          Run.plain []]] := by
  decide

example : pySplit ['\n'] [] = [[]] := by decide

example : pySplit ['a'] ['a', ' ', 'a'] = [[], [' '], []] := by decide

end CommsAutomation
